/-
Verification of the `backoff` retry library.

Source files modelled:
  * `curves.go` — the delay-curve functions `Default`, `Logistic`, `Linear`,
    embedded over the real numbers (float64 idealised as ℝ; `math.E` and
    `math.Exp` become `Real.exp 1` and `Real.exp`).
  * `backoff.go` — the retry engine `Backoff` and its worker loop `backoff`,
    embedded over the rational numbers.  The engine performs no inexact
    float arithmetic: it only converts the attempt counter to float64
    (exact), applies the caller's curve, and converts the curve's output to
    a `time.Duration` (an int64 second count, truncating toward zero) —
    all exact on ℚ, so the ℚ model is faithful to the Go semantics.

The worker goroutine's loop is modelled as a fuel-indexed recursion:
`none` means the loop has not terminated within `fuel` iterations (the Go
loop may genuinely run forever in unbounded mode), `some o` gives the
terminal outcome together with the observable trace of the run (the errors
sent on the error channel, the errors handed to the `LogFailure` callback,
the number of operation invocations, and the timer durations requested).
-/
import Mathlib

/-- Go `error` values occurring in the model: the package-level
`ErrInvalidConfig` sentinel (declared outside the two provided source
files) and arbitrary operation errors, indexed by a natural number so that
claims can quantify over error sequences. -/
inductive Err where
  | invalidConfig : Err
  | e : ℕ → Err
deriving DecidableEq, Repr

/-- The sentinel error returned by `Backoff` when the configuration is
missing its curve or its function. -/
def ErrInvalidConfig : Err := Err.invalidConfig

/-- `Config[T]` from backoff.go.  `Curve` and `Func` are modelled as
`Option`s because the Go fields are nilable function values; `LogFailure`
is modelled by its presence (the callback returns nothing and cannot
influence the engine).  The operation `Func` is deterministic per
invocation index: the engine calls it with the current value of the
attempt counter implicit, so invocation `i` of the Go closure corresponds
to `Func i` here.  The unused `Result T` field of the Go struct is not
part of the model (nothing in backoff.go reads or writes it). -/
structure Config (T : Type) where
  Curve : Option (ℚ → ℚ)
  Func : Option (ℕ → Option T × Option Err)
  MaxAttempts : ℕ
  LogFailure : Bool

/-- The observable outcome of one run of the worker loop:
`res` is the value sent on the result channel, `chanErrors` the errors
sent on the error channel in order, `logged` the errors passed to the
`LogFailure` callback in order, `invocations` the number of calls of the
operation, and `delays` the per-iteration durations (in whole seconds, as
produced by the `time.Duration` conversion) requested from `time.After`. -/
structure Outcome (T : Type) where
  res : Option T
  chanErrors : List Err
  logged : List Err
  invocations : ℕ
  delays : List ℤ
deriving DecidableEq, Repr

/-- `time.Duration(d) * time.Second` for a float64 `d` holding a number of
seconds: the float-to-int64 conversion truncates toward zero, so the
requested duration is `trunc d` seconds.  On a rational `d = num/den`
(reduced, `den > 0`) truncation toward zero is `Int.tdiv num den`. -/
def durationSeconds (d : ℚ) : ℤ := Int.tdiv d.num (d.den : ℤ)

/-- The worker goroutine `backoff` from backoff.go, lines 57–90, as a
fuel-indexed recursion.  Each iteration of the Go `for` loop consumes one
unit of fuel: first the condition `attempts == 0 || attempt < attempts`
is checked; then the loop sleeps `time.Duration(curve(float64(attempt)))`
seconds, invokes `fn`, hands a non-nil error to `logFailure` (when
present) and to the buffered error channel (bounded mode only), breaks if
the result is non-nil, and otherwise increments `attempt` and loops. -/
def backoff {T : Type} (curve : ℚ → ℚ) (fn : ℕ → Option T × Option Err)
    (attempts : ℕ) (logFailure : Bool) : ℕ → ℕ → Option (Outcome T)
  | 0, attempt =>
      if attempts = 0 ∨ attempt < attempts then none
      else some ⟨none, [], [], 0, []⟩
  | fuel + 1, attempt =>
      if attempts = 0 ∨ attempt < attempts then
        let d := durationSeconds (curve (attempt : ℚ))
        let res := (fn attempt).1
        let err := (fn attempt).2
        let ch := if attempts ≠ 0 then err.toList else []
        let lg := if logFailure then err.toList else []
        if res.isSome then
          some ⟨res, ch, lg, 1, [d]⟩
        else
          match backoff curve fn attempts logFailure fuel (attempt + 1) with
          | none => none
          | some o =>
              some ⟨o.res, ch ++ o.chanErrors, lg ++ o.logged,
                    o.invocations + 1, d :: o.delays⟩
      else some ⟨none, [], [], 0, []⟩

/-- `Backoff` from backoff.go, lines 29–55.  It validates the
configuration, spawns the worker, blocks on the result channel, and —
only when the received result is nil — drains the error channel into the
returned slice.  The returned triple is the Go pair `(res, errs)`
(`none` modelling a nil slice) together with the worker's observable
trace; `none` overall means the worker did not terminate within `fuel`
iterations. -/
def Backoff {T : Type} (conf : Config T) (fuel : ℕ) :
    Option (Option T × Option (List Err) × Outcome T) :=
  match conf.Curve, conf.Func with
  | some curve, some fn =>
      match backoff curve fn conf.MaxAttempts conf.LogFailure fuel 0 with
      | none => none
      | some o =>
          if o.res.isSome then some (o.res, none, o)
          else some (none, some o.chanErrors, o)
  | _, _ => some (none, some [ErrInvalidConfig], ⟨none, [], [], 0, []⟩)

/-- `Logistic` from curves.go: `L / (1 + e · e^(−k·(x−x0)))`, with the
deliberate extra factor of Euler's number. -/
noncomputable def Logistic (x k L x0 : ℝ) : ℝ :=
  L / (1 + Real.exp 1 * Real.exp (-k * (x - x0)))

/-- `Default` from curves.go: steepness `incline = 1 / (5 / attempts)`,
then the logistic curve with that steepness, maximum `limit` and midpoint
`attempts`. -/
noncomputable def Default (attempts : ℕ) (limit : ℝ) : ℝ → ℝ :=
  fun x => Logistic x (1 / (5 / (attempts : ℝ))) limit (attempts : ℝ)

/-- `Linear` from curves.go: `x * mul`. -/
noncomputable def Linear (x mul : ℝ) : ℝ := x * mul

/-- A concrete operation that fails on every invocation with error
`Err.e i`. -/
def exFnFail : ℕ → Option ℕ × Option Err := fun i => (none, some (Err.e i))

/-- A concrete operation that fails on its first two invocations and
returns `7` (with a nil error) on the third. -/
def exFnThird : ℕ → Option ℕ × Option Err :=
  fun i => if i < 2 then (none, some (Err.e i)) else (some 7, none)

/-- A concrete operation that fails once and then returns the value `3`
together with a non-nil error. -/
def exFnBoth : ℕ → Option ℕ × Option Err :=
  fun i => if i = 0 then (none, some (Err.e 0)) else (some 3, some (Err.e 9))

/-- The constant curve `1/2`: its output is a representable float that is
not a whole number of seconds. -/
def exCurveHalf : ℚ → ℚ := fun _ => mkRat 1 2

/-- The constant zero curve. -/
def exZeroCurve : ℚ → ℚ := fun _ => 0

/-- Characterization of the worker loop when the operation fails (nil
result, non-nil error) on every attempt below the bound: the loop runs all
remaining attempts and exits via the loop condition with a nil result,
having sent every error to the channel in attempt order. -/
lemma backoff_allFail {T : Type} (curve : ℚ → ℚ) (fn : ℕ → Option T × Option Err)
    (attempts : ℕ) (logF : Bool) (e : ℕ → Err) (hpos : 0 < attempts)
    (hfn : ∀ i, i < attempts → fn i = (none, some (e i))) :
    ∀ fuel attempt, attempt ≤ attempts → attempts ≤ attempt + fuel →
      backoff curve fn attempts logF fuel attempt =
        some ⟨none, (List.range' attempt (attempts - attempt)).map e,
              if logF then (List.range' attempt (attempts - attempt)).map e else [],
              attempts - attempt,
              (List.range' attempt (attempts - attempt)).map
                (fun i => durationSeconds (curve (i : ℚ)))⟩ := by
  intro fuel
  induction fuel with
  | zero =>
      intro attempt h1 h2
      have heq : attempt = attempts := by omega
      subst heq
      simp [backoff, hpos.ne']
  | succ fuel ih =>
      intro attempt h1 h2
      rcases eq_or_lt_of_le h1 with heq | hlt
      · subst heq
        simp [backoff, hpos.ne']
      · have hrec := ih (attempt + 1) hlt (by omega)
        have hn : attempts - attempt = (attempts - (attempt + 1)) + 1 := by omega
        rw [backoff, if_pos (Or.inr hlt), hn, List.range'_succ]
        cases logF <;>
          simp [hfn attempt hlt, hrec, hpos.ne', List.range'_succ]

/-- Characterization of the worker loop when the operation fails on every
attempt below `k` and yields a non-nil result at attempt `k` (with any
accompanying error), `k` being admissible for the mode: the loop breaks at
attempt `k` and sends the non-nil result. -/
lemma backoff_succeedsAt {T : Type} (curve : ℚ → ℚ) (fn : ℕ → Option T × Option Err)
    (attempts : ℕ) (logF : Bool) (e : ℕ → Err) (v : T) (errK : Option Err) (k : ℕ)
    (hfail : ∀ i, i < k → fn i = (none, some (e i)))
    (hsucc : fn k = (some v, errK))
    (hmode : attempts = 0 ∨ k < attempts) :
    ∀ fuel attempt, attempt ≤ k → k < attempt + fuel →
      backoff curve fn attempts logF fuel attempt =
        some ⟨some v,
              if attempts = 0 then []
                else (List.range' attempt (k - attempt)).map e ++ errK.toList,
              if logF then (List.range' attempt (k - attempt)).map e ++ errK.toList
                else [],
              k - attempt + 1,
              (List.range' attempt (k - attempt + 1)).map
                (fun i => durationSeconds (curve (i : ℚ)))⟩ := by
  intro fuel
  induction fuel with
  | zero => intro attempt h1 h2; omega
  | succ fuel ih =>
      intro attempt h1 h2
      have hcond : attempts = 0 ∨ attempt < attempts := by
        rcases hmode with h | h
        · exact Or.inl h
        · exact Or.inr (lt_of_le_of_lt h1 h)
      rcases eq_or_lt_of_le h1 with heq | hlt
      · subst heq
        rw [backoff, if_pos hcond]
        cases logF <;> simp [hsucc, ite_not, List.range'_one]
      · have hrec := ih (attempt + 1) hlt (by omega)
        have hn : k - attempt = (k - (attempt + 1)) + 1 := by omega
        rw [backoff, if_pos hcond, hn, List.range'_succ]
        by_cases h0 : attempts = 0
        · subst h0
          cases logF <;> simp [hfail attempt hlt, hrec, ite_not, List.range'_succ]
        · cases logF <;>
            simp [hfail attempt hlt, hrec, ite_not, List.range'_succ, h0]

/-- In bounded mode the worker performs at most `attempts - attempt`
further invocations, and sends at most one error per invocation. -/
lemma backoff_invocations_le {T : Type} (curve : ℚ → ℚ) (fn : ℕ → Option T × Option Err)
    (attempts : ℕ) (logF : Bool) (hpos : 0 < attempts) :
    ∀ fuel attempt o, backoff curve fn attempts logF fuel attempt = some o →
      o.invocations ≤ attempts - attempt ∧ o.chanErrors.length ≤ o.invocations := by
  intro fuel
  induction fuel with
  | zero =>
      intro attempt o h
      rw [backoff] at h
      split at h
      · exact absurd h (by simp)
      · obtain rfl := Option.some.inj h
        simp
  | succ fuel ih =>
      intro attempt o h
      rw [backoff] at h
      split at h
      case isFalse hcond =>
        obtain rfl := Option.some.inj h
        simp
      case isTrue hcond =>
        simp only at h
        by_cases hres : ((fn attempt).1).isSome
        · rw [if_pos hres] at h
          obtain rfl := Option.some.inj h
          have hch : (if attempts ≠ 0 then ((fn attempt).2).toList else []).length ≤ 1 := by
            cases (fn attempt).2 <;> split <;> simp
          have hlt : attempt < attempts := hcond.resolve_left (by omega)
          exact ⟨by simp only [Outcome.invocations]; omega, by simpa using hch⟩
        · rw [if_neg hres] at h
          cases hrec : backoff curve fn attempts logF fuel (attempt + 1) with
          | none => rw [hrec] at h; exact absurd h (by simp)
          | some o' =>
              rw [hrec] at h
              simp only at h
              obtain rfl := Option.some.inj h
              obtain ⟨ih1, ih2⟩ := ih (attempt + 1) o' hrec
              have hch : (if attempts ≠ 0 then ((fn attempt).2).toList else []).length ≤ 1 := by
                cases (fn attempt).2 <;> split <;> simp
              have hlt : attempt < attempts := hcond.resolve_left (by omega)
              constructor
              · simp only [Outcome.invocations]
                omega
              · simp only [Outcome.chanErrors, Outcome.invocations, List.length_append]
                omega

/-- In unbounded mode (`attempts = 0`) the worker can only terminate by
breaking on a non-nil result; it never writes to the error channel, and it
hands errors to the callback only when one is present. -/
lemma backoff_unbounded_shape {T : Type} (curve : ℚ → ℚ) (fn : ℕ → Option T × Option Err)
    (logF : Bool) :
    ∀ fuel attempt o, backoff curve fn 0 logF fuel attempt = some o →
      o.res.isSome = true ∧ o.chanErrors = [] ∧ (logF = false → o.logged = []) := by
  intro fuel
  induction fuel with
  | zero =>
      intro attempt o h
      rw [backoff] at h
      split at h
      · exact absurd h (by simp)
      · omega
  | succ fuel ih =>
      intro attempt o h
      rw [backoff] at h
      rw [if_pos (Or.inl rfl)] at h
      simp only at h
      by_cases hres : ((fn attempt).1).isSome
      · rw [if_pos hres] at h
        obtain rfl := Option.some.inj h
        refine ⟨hres, by simp, ?_⟩
        rintro rfl
        simp
      · rw [if_neg hres] at h
        cases hrec : backoff curve fn 0 logF fuel (attempt + 1) with
        | none => rw [hrec] at h; exact absurd h (by simp)
        | some o' =>
            rw [hrec] at h
            simp only at h
            obtain rfl := Option.some.inj h
            obtain ⟨ih1, ih2, ih3⟩ := ih (attempt + 1) o' hrec
            refine ⟨ih1, by simpa using ih2, ?_⟩
            rintro rfl
            simpa using ih3 rfl

/-- The requested timer durations of a terminating run are exactly the
truncated curve values at the successive attempt indices. -/
lemma backoff_delays_eq {T : Type} (curve : ℚ → ℚ) (fn : ℕ → Option T × Option Err)
    (attempts : ℕ) (logF : Bool) :
    ∀ fuel attempt o, backoff curve fn attempts logF fuel attempt = some o →
      o.delays = (List.range' attempt o.invocations).map
        (fun i => durationSeconds (curve (i : ℚ))) := by
  intro fuel
  induction fuel with
  | zero =>
      intro attempt o h
      rw [backoff] at h
      split at h
      · exact absurd h (by simp)
      · obtain rfl := Option.some.inj h
        simp
  | succ fuel ih =>
      intro attempt o h
      rw [backoff] at h
      split at h
      case isFalse hcond =>
        obtain rfl := Option.some.inj h
        simp
      case isTrue hcond =>
        simp only at h
        by_cases hres : ((fn attempt).1).isSome
        · rw [if_pos hres] at h
          obtain rfl := Option.some.inj h
          simp [List.range'_one]
        · rw [if_neg hres] at h
          cases hrec : backoff curve fn attempts logF fuel (attempt + 1) with
          | none => rw [hrec] at h; exact absurd h (by simp)
          | some o' =>
              rw [hrec] at h
              simp only at h
              obtain rfl := Option.some.inj h
              have := ih (attempt + 1) o' hrec
              simp [this, List.range'_succ]

/-- C1: for every bounded configuration with `MaxAttempts = N > 0` whose
operation returns an error (and a nil result) on every invocation,
`Backoff` returns a nil result together with an error sequence of length
exactly `N` containing the operation's errors in attempt order. -/
theorem Backoff_bounded_allFail {T : Type} (curve : ℚ → ℚ)
    (fn : ℕ → Option T × Option Err) (e : ℕ → Err) (N fuel : ℕ) (logF : Bool)
    (hpos : 0 < N) (hfn : ∀ i, i < N → fn i = (none, some (e i)))
    (hfuel : N ≤ fuel) :
    ∃ o, Backoff ⟨some curve, some fn, N, logF⟩ fuel =
        some (none, some ((List.range N).map e), o) ∧
      ((List.range N).map e).length = N := by
  have hrun := backoff_allFail curve fn N logF e hpos hfn fuel 0 (Nat.zero_le _)
    (by omega)
  refine ⟨⟨none, (List.range N).map e, if logF then (List.range N).map e else [],
          N, (List.range N).map (fun i => durationSeconds (curve (i : ℚ)))⟩,
        ?_, by simp⟩
  unfold Backoff
  simp only
  rw [hrun]
  simp [List.range_eq_range']

/-- C1 witness: `MaxAttempts = 3` and an always-failing operation yield a
nil result and the three errors in attempt order. -/
theorem Backoff_bounded_allFail_witness :
    ∃ o, Backoff (⟨some exZeroCurve, some exFnFail, 3, false⟩ : Config ℕ) 3 =
        some (none, some ((List.range 3).map Err.e), o) ∧
      ((List.range 3).map Err.e).length = 3 :=
  Backoff_bounded_allFail exZeroCurve exFnFail Err.e 3 3 false (by decide)
    (fun i _ => rfl) (by decide)

/-- C2: for an operation that errors on attempts `0..k-1` and yields a
non-nil result on attempt `k` — with `k < MaxAttempts` in bounded mode or
`MaxAttempts = 0` — `Backoff` returns that result with a nil error
sequence and the operation is invoked exactly `k + 1` times, no more. -/
theorem Backoff_succeeds_after_k {T : Type} (curve : ℚ → ℚ)
    (fn : ℕ → Option T × Option Err) (e : ℕ → Err) (v : T) (errK : Option Err)
    (k N fuel : ℕ) (logF : Bool)
    (hfail : ∀ i, i < k → fn i = (none, some (e i)))
    (hsucc : fn k = (some v, errK))
    (hmode : N = 0 ∨ k < N) (hfuel : k < fuel) :
    ∃ o, Backoff ⟨some curve, some fn, N, logF⟩ fuel = some (some v, none, o) ∧
      o.invocations = k + 1 := by
  have hrun := backoff_succeedsAt curve fn N logF e v errK k hfail hsucc hmode
    fuel 0 (Nat.zero_le _) (by omega)
  refine ⟨⟨some v, if N = 0 then [] else (List.range' 0 k).map e ++ errK.toList,
          if logF then (List.range' 0 k).map e ++ errK.toList else [],
          k + 1, (List.range' 0 (k + 1)).map
            (fun i => durationSeconds (curve (i : ℚ)))⟩, ?_, rfl⟩
  unfold Backoff
  simp only
  rw [hrun]
  simp

/-- C2 witness (scenario B of the spec): `MaxAttempts = 0`, operation
fails twice then returns `7` on the third call; the result is `7` with a
nil error sequence and exactly `2 + 1` invocations. -/
theorem Backoff_succeeds_after_k_witness :
    ∃ o, Backoff (⟨some exZeroCurve, some exFnThird, 0, false⟩ : Config ℕ) 3 =
        some (some 7, none, o) ∧ o.invocations = 2 + 1 :=
  Backoff_succeeds_after_k exZeroCurve exFnThird Err.e 7 none 2 0 3 false
    (by decide) (by decide) (Or.inl rfl) (by decide)

/-- C3: a configuration whose curve or operation is absent makes `Backoff`
return a nil result and an error sequence containing exactly the one
`ErrInvalidConfig` error, with a trace showing zero operation
invocations. -/
theorem Backoff_missing_curve_or_func {T : Type} (conf : Config T) (fuel : ℕ)
    (h : conf.Curve = none ∨ conf.Func = none) :
    Backoff conf fuel =
      some (none, some [ErrInvalidConfig], ⟨none, [], [], 0, []⟩) := by
  obtain ⟨cu, fu, ma, lf⟩ := conf
  cases cu <;> cases fu <;> simp_all [Backoff]

/-- C3 witness: a configuration with no curve fails fast with
`ErrInvalidConfig` and an empty trace. -/
theorem Backoff_missing_curve_or_func_witness :
    Backoff (⟨none, some exFnFail, 3, false⟩ : Config ℕ) 5 =
      some (none, some [ErrInvalidConfig], ⟨none, [], [], 0, []⟩) :=
  Backoff_missing_curve_or_func (⟨none, some exFnFail, 3, false⟩ : Config ℕ) 5
    (Or.inl rfl)

/-- C4: in unbounded mode (`MaxAttempts = 0`), whenever `Backoff`
terminates it returns a non-nil result and a nil error sequence; nothing
is ever written to the error channel, and errors reach the `LogFailure`
callback only when one is provided. -/
theorem Backoff_unbounded_never_surfaces_errors {T : Type} (conf : Config T)
    (curve : ℚ → ℚ) (fn : ℕ → Option T × Option Err) (fuel : ℕ)
    (out : Option T × Option (List Err) × Outcome T)
    (hmax : conf.MaxAttempts = 0) (hc : conf.Curve = some curve)
    (hf : conf.Func = some fn)
    (h : Backoff conf fuel = some out) :
    out.1.isSome = true ∧ out.2.1 = none ∧ out.2.2.chanErrors = [] ∧
      (conf.LogFailure = false → out.2.2.logged = []) := by
  obtain ⟨cu, fu, ma, lf⟩ := conf
  simp only at hmax hc hf ⊢
  subst hmax
  subst hc
  subst hf
  unfold Backoff at h
  simp only at h
  cases hrec : backoff curve fn 0 lf fuel 0 with
  | none => rw [hrec] at h; exact absurd h (by simp)
  | some o =>
      rw [hrec] at h
      simp only at h
      obtain ⟨h1, h2, h3⟩ := backoff_unbounded_shape curve fn lf fuel 0 o hrec
      rw [if_pos h1] at h
      obtain rfl := Option.some.inj h
      exact ⟨h1, rfl, h2, h3⟩

/-- C4 witness: an unbounded run that fails twice and then succeeds with
`7` returns the result, surfaces no errors, and (with no callback
provided) logs nothing. -/
theorem Backoff_unbounded_never_surfaces_errors_witness :
    ((some 7, none, ⟨some 7, [], [], 3, [0, 0, 0]⟩) :
        Option ℕ × Option (List Err) × Outcome ℕ).1.isSome = true ∧
      ((some 7, none, ⟨some 7, [], [], 3, [0, 0, 0]⟩) :
        Option ℕ × Option (List Err) × Outcome ℕ).2.1 = none ∧
      ((some 7, none, ⟨some 7, [], [], 3, [0, 0, 0]⟩) :
        Option ℕ × Option (List Err) × Outcome ℕ).2.2.chanErrors = [] ∧
      ((⟨some exZeroCurve, some exFnThird, 0, false⟩ : Config ℕ).LogFailure = false →
        ((some 7, none, ⟨some 7, [], [], 3, [0, 0, 0]⟩) :
          Option ℕ × Option (List Err) × Outcome ℕ).2.2.logged = []) :=
  Backoff_unbounded_never_surfaces_errors
    (⟨some exZeroCurve, some exFnThird, 0, false⟩ : Config ℕ) exZeroCurve
    exFnThird 3 (some 7, none, ⟨some 7, [], [], 3, [0, 0, 0]⟩) rfl rfl rfl
    (by decide)

/-- C5 counterexample: the engine does not suspend for exactly
`curve(attempt)` seconds.  The sleep line converts the curve's float
output to a `time.Duration`, truncating it to a whole second count: with
the constant curve `1/2` a bounded two-attempt run requests a `0`-second
timer before each attempt, although `curve(1) = 1/2 ≠ 0`. -/
theorem Backoff_delay_exact_counterexample :
    Backoff (⟨some exCurveHalf, some exFnFail, 2, false⟩ : Config ℕ) 2 =
        some (none, some [Err.e 0, Err.e 1],
          ⟨none, [Err.e 0, Err.e 1], [], 2, [0, 0]⟩) ∧
      exCurveHalf (1 : ℚ) = mkRat 1 2 ∧ ¬ (((0 : ℤ) : ℚ) = mkRat 1 2) :=
  ⟨by decide, rfl, by decide⟩

/-- C5 (amended): before each attempt with zero-based index `i` the engine
requests a timer of `time.Duration(curve(i))` seconds — the curve's
output truncated toward zero to a whole number of seconds — rather than
exactly `curve(i)` seconds. -/
theorem Backoff_delays_are_truncated_curve {T : Type} (conf : Config T)
    (curve : ℚ → ℚ) (fuel : ℕ)
    (out : Option T × Option (List Err) × Outcome T)
    (hc : conf.Curve = some curve)
    (h : Backoff conf fuel = some out) :
    out.2.2.delays = (List.range out.2.2.invocations).map
      (fun i => durationSeconds (curve (i : ℚ))) := by
  obtain ⟨cu, fu, ma, lf⟩ := conf
  simp only at hc h ⊢
  subst hc
  cases fu with
  | none =>
      unfold Backoff at h
      simp only at h
      obtain rfl := Option.some.inj h
      simp
  | some fn =>
      unfold Backoff at h
      simp only at h
      cases hrec : backoff curve fn ma lf fuel 0 with
      | none => rw [hrec] at h; exact absurd h (by simp)
      | some o =>
          rw [hrec] at h
          simp only at h
          have hd := backoff_delays_eq curve fn ma lf fuel 0 o hrec
          by_cases hres : o.res.isSome
          · rw [if_pos hres] at h
            obtain rfl := Option.some.inj h
            simpa [List.range_eq_range'] using hd
          · rw [if_neg hres] at h
            obtain rfl := Option.some.inj h
            simpa [List.range_eq_range'] using hd

/-- C5 witness (for the amended claim): in the two-attempt run with the
constant curve `1/2`, the requested delays are the truncations of the
curve's outputs. -/
theorem Backoff_delays_are_truncated_curve_witness :
    ((none, some [Err.e 0, Err.e 1], ⟨none, [Err.e 0, Err.e 1], [], 2, [0, 0]⟩) :
        Option ℕ × Option (List Err) × Outcome ℕ).2.2.delays =
      (List.range ((none, some [Err.e 0, Err.e 1],
          ⟨none, [Err.e 0, Err.e 1], [], 2, [0, 0]⟩) :
            Option ℕ × Option (List Err) × Outcome ℕ).2.2.invocations).map
        (fun i => durationSeconds (exCurveHalf (i : ℚ))) :=
  Backoff_delays_are_truncated_curve
    (⟨some exCurveHalf, some exFnFail, 2, false⟩ : Config ℕ) exCurveHalf 2
    (none, some [Err.e 0, Err.e 1], ⟨none, [Err.e 0, Err.e 1], [], 2, [0, 0]⟩)
    rfl (by decide)

/-- C6: with `MaxAttempts = N > 0`, any terminating `Backoff` call invokes
the operation at most `N` times and any returned error sequence has length
at most `N`, for every configuration and operation behaviour. -/
theorem Backoff_bounded_budget {T : Type} (conf : Config T) (fuel : ℕ)
    (out : Option T × Option (List Err) × Outcome T)
    (hpos : 0 < conf.MaxAttempts)
    (h : Backoff conf fuel = some out) :
    out.2.2.invocations ≤ conf.MaxAttempts ∧
      ∀ l, out.2.1 = some l → l.length ≤ conf.MaxAttempts := by
  obtain ⟨cu, fu, ma, lf⟩ := conf
  simp only at hpos h ⊢
  cases cu with
  | none =>
      unfold Backoff at h
      simp only at h
      obtain rfl := Option.some.inj h
      refine ⟨by simp, ?_⟩
      intro l hl
      obtain rfl := Option.some.inj hl
      simpa using hpos
  | some curve =>
      cases fu with
      | none =>
          unfold Backoff at h
          simp only at h
          obtain rfl := Option.some.inj h
          refine ⟨by simp, ?_⟩
          intro l hl
          obtain rfl := Option.some.inj hl
          simpa using hpos
      | some fn =>
          unfold Backoff at h
          simp only at h
          cases hrec : backoff curve fn ma lf fuel 0 with
          | none => rw [hrec] at h; exact absurd h (by simp)
          | some o =>
              rw [hrec] at h
              simp only at h
              obtain ⟨h1, h2⟩ := backoff_invocations_le curve fn ma lf hpos fuel 0 o hrec
              by_cases hres : o.res.isSome
              · rw [if_pos hres] at h
                obtain rfl := Option.some.inj h
                refine ⟨by simp only; omega, ?_⟩
                intro l hl
                exact absurd hl (by simp)
              · rw [if_neg hres] at h
                obtain rfl := Option.some.inj h
                refine ⟨by simp only; omega, ?_⟩
                intro l hl
                simp only at hl
                obtain rfl := Option.some.inj hl
                omega

/-- C6 witness: a two-attempt always-failing run invokes the operation
twice and returns two errors, within the budget of `2`. -/
theorem Backoff_bounded_budget_witness :
    ((none, some [Err.e 0, Err.e 1], ⟨none, [Err.e 0, Err.e 1], [], 2, [0, 0]⟩) :
        Option ℕ × Option (List Err) × Outcome ℕ).2.2.invocations ≤ 2 ∧
      ∀ l, ((none, some [Err.e 0, Err.e 1],
          ⟨none, [Err.e 0, Err.e 1], [], 2, [0, 0]⟩) :
            Option ℕ × Option (List Err) × Outcome ℕ).2.1 = some l →
        l.length ≤ 2 :=
  Backoff_bounded_budget (⟨some exZeroCurve, some exFnFail, 2, false⟩ : Config ℕ)
    2 (none, some [Err.e 0, Err.e 1], ⟨none, [Err.e 0, Err.e 1], [], 2, [0, 0]⟩)
    (by decide) (by decide)

/-- C7: for `maxAttempts > 0`, the curve returned by
`Default(maxAttempts, limit)` applied at any `x` equals
`Logistic(x, k, L, x0)` with steepness `k = maxAttempts / 5`, maximum
`L = limit` and midpoint `x0 = maxAttempts` (the code computes the
steepness as `1 / (5 / maxAttempts)`, which equals `maxAttempts / 5`). -/
theorem Default_eq_Logistic (attempts : ℕ) (limit x : ℝ)
    (_hpos : 0 < attempts) :
    Default attempts limit x =
      Logistic x ((attempts : ℝ) / 5) limit (attempts : ℝ) := by
  unfold Default
  rw [one_div_div]

/-- C7 witness: `Default(5, 2)` at `x = 0` is the logistic curve with
steepness `5/5`, maximum `2` and midpoint `5`. -/
theorem Default_eq_Logistic_witness :
    0 < 5 ∧ Default 5 2 0 = Logistic 0 (((5 : ℕ) : ℝ) / 5) 2 ((5 : ℕ) : ℝ) :=
  ⟨by decide, Default_eq_Logistic 5 2 0 (by decide)⟩

/-- C8 counterexample: `Default` with `maxAttempts = 0` is not a faulting
or undefined operation.  Go float64 division never faults:
`5 / float64(0) = +Inf` and `1 / +Inf = 0`, so the steepness is `0` (the
real-number model's division-by-zero convention `5/0 = 0`, `1/0 = 0`
yields the same steepness), and the returned curve is everywhere the
well-defined constant `limit / (1 + e)` — here evaluated at the two
inputs `0` and `100`. -/
theorem Default_zero_attempts_defined :
    Default 0 1 0 = 1 / (1 + Real.exp 1) ∧
      Default 0 1 100 = 1 / (1 + Real.exp 1) := by
  constructor <;> simp [Default, Logistic]

/-- C8 (amended): calling `Default` with `maxAttempts = 0` performs a
division by zero while computing the steepness, but this is defined (not
faulting) under the code's float semantics and produces steepness `0`:
`Default(0, limit)` is the constant curve `x ↦ limit / (1 + e)`, a
degenerate curve that never rises toward `limit`, so `maxAttempts > 0` is
still required for a useful delay schedule. -/
theorem Default_zero_attempts_constant (limit x : ℝ) :
    Default 0 limit x = limit / (1 + Real.exp 1) := by
  simp [Default, Logistic]

/-- C9: at the midpoint `x = x0` the logistic curve takes the value
`L / (1 + e)` for all `k`, `L`, `x0` — the inflection-point identity of
the deliberately non-textbook form `L / (1 + e·e^(−k·(x−x0)))`. -/
theorem Logistic_at_midpoint (k L x0 : ℝ) :
    Logistic x0 k L x0 = L / (1 + Real.exp 1) := by
  simp [Logistic]

/-- C10: if the operation returns both a non-nil result and a non-nil
error on attempt `k` (after failing on attempts `0..k-1`), the error is
still handed to the `LogFailure` callback and, in bounded mode, sent to
the error channel — yet the attempt counts as a success: `Backoff` stops
retrying after exactly `k + 1` invocations and returns the non-nil result
with a nil error sequence, discarding all accumulated errors. -/
theorem Backoff_result_with_error_wins {T : Type} (curve : ℚ → ℚ)
    (fn : ℕ → Option T × Option Err) (e : ℕ → Err) (v : T) (err : Err)
    (k N fuel : ℕ)
    (hfail : ∀ i, i < k → fn i = (none, some (e i)))
    (hsucc : fn k = (some v, some err))
    (hmode : N = 0 ∨ k < N) (hfuel : k < fuel) :
    ∃ o, Backoff ⟨some curve, some fn, N, true⟩ fuel = some (some v, none, o) ∧
      o.logged = (List.range k).map e ++ [err] ∧
      (N ≠ 0 → o.chanErrors = (List.range k).map e ++ [err]) ∧
      o.invocations = k + 1 := by
  have hrun := backoff_succeedsAt curve fn N true e v (some err) k hfail hsucc
    hmode fuel 0 (Nat.zero_le _) (by omega)
  refine ⟨⟨some v, if N = 0 then [] else (List.range' 0 k).map e ++ [err],
          (List.range' 0 k).map e ++ [err], k + 1,
          (List.range' 0 (k + 1)).map
            (fun i => durationSeconds (curve (i : ℚ)))⟩,
        ?_, by simp [List.range_eq_range'], ?_, rfl⟩
  · unfold Backoff
    simp only
    rw [hrun]
    simp
  · intro hN
    simp [List.range_eq_range', hN]

/-- C10 witness: an operation that fails once and then returns `3`
together with an error: the run stops with result `3`, a nil error
sequence, both errors logged and recorded internally, after exactly two
invocations. -/
theorem Backoff_result_with_error_wins_witness :
    ∃ o, Backoff (⟨some exZeroCurve, some exFnBoth, 2, true⟩ : Config ℕ) 2 =
        some (some 3, none, o) ∧
      o.logged = (List.range 1).map Err.e ++ [Err.e 9] ∧
      ((2 : ℕ) ≠ 0 → o.chanErrors = (List.range 1).map Err.e ++ [Err.e 9]) ∧
      o.invocations = 1 + 1 :=
  Backoff_result_with_error_wins exZeroCurve exFnBoth Err.e 3 (Err.e 9) 1 2 2
    (by decide) (by decide) (Or.inr (by decide)) (by decide)
